import Mathlib

/-!
# Verification of the n8n-web-widget-chat streaming relay core

Shallow embedding of the proxy-server's streaming relay components
(apps/proxy-server/main_simple.py, main_production.py,
src/services/sse_manager.py, src/middleware/error_handling.py,
src/api/v1/endpoints/chat.py) and proofs of the specification's claims
about them.

Bytes are modelled as `Nat` (each < 256 where it matters), Python strings
as `List Char` or `String`, and wall-clock times as `Nat` seconds.
-/

/-! ## FrameDecoder (main_simple.py, forward_to_n8n_stream lines 164-189)

The Python loop accumulates network chunks into `byte_buffer`, attempts a
full `bytes.decode("utf-8")`, and on `UnicodeDecodeError e` decodes the
prefix `byte_buffer[:e.start]` and retains `byte_buffer[e.start:]`
(retaining everything when `e.start == 0`).  We embed CPython's strict
UTF-8 codec: `utf8DecodeOne` decodes one scalar value from the front of a
byte list or fails (CPython reports `e.start` at the first byte of the
offending sequence), and `pyDecode` returns the decoded scalar values
together with the undecoded suffix starting at the first error. -/

/-- UTF-8 encoding of one Unicode scalar value (RFC 3629). -/
def encCp (n : Nat) : List Nat :=
  if n < 0x80 then [n]
  else if n < 0x800 then [0xC0 + n / 64, 0x80 + n % 64]
  else if n < 0x10000 then [0xE0 + n / 4096, 0x80 + n / 64 % 64, 0x80 + n % 64]
  else [0xF0 + n / 262144, 0x80 + n / 4096 % 64, 0x80 + n / 64 % 64, 0x80 + n % 64]

/-- UTF-8 encoding of one character. -/
def utf8EncodeChar (c : Char) : List Nat := encCp c.toNat

/-- UTF-8 encoding of a string (as a character list). -/
def utf8Encode : List Char → List Nat
  | [] => []
  | c :: cs => utf8EncodeChar c ++ utf8Encode cs

/-- Lower bound for the first continuation byte of a 3-byte sequence
(CPython's DFA: lead `0xE0` requires `0xA0-0xBF`). -/
def contLo3 (b0 : Nat) : Nat := if b0 = 0xE0 then 0xA0 else 0x80

/-- Upper bound (exclusive) for the first continuation byte of a 3-byte
sequence (lead `0xED` requires `0x80-0x9F`, excluding surrogates). -/
def contHi3 (b0 : Nat) : Nat := if b0 = 0xED then 0xA0 else 0xC0

/-- Lower bound for the first continuation byte of a 4-byte sequence
(lead `0xF0` requires `0x90-0xBF`). -/
def contLo4 (b0 : Nat) : Nat := if b0 = 0xF0 then 0x90 else 0x80

/-- Upper bound (exclusive) for the first continuation byte of a 4-byte
sequence (lead `0xF4` requires `0x80-0x8F`). -/
def contHi4 (b0 : Nat) : Nat := if b0 = 0xF4 then 0x90 else 0xC0

/-- Decode one UTF-8 scalar value from the front of a byte list, CPython
strict-mode semantics: `none` when the bytes at the front are invalid or
incomplete (the error's reported start is the current offset). -/
def utf8DecodeOne : List Nat → Option (Nat × List Nat)
  | [] => none
  | b0 :: rest =>
    if b0 < 0x80 then some (b0, rest)
    else if b0 < 0xC2 then none
    else if b0 < 0xE0 then
      match rest with
      | b1 :: r =>
        if 0x80 ≤ b1 ∧ b1 < 0xC0 then some ((b0 - 0xC0) * 64 + (b1 - 0x80), r) else none
      | [] => none
    else if b0 < 0xF0 then
      match rest with
      | b1 :: b2 :: r =>
        if contLo3 b0 ≤ b1 ∧ b1 < contHi3 b0 ∧ 0x80 ≤ b2 ∧ b2 < 0xC0 then
          some ((b0 - 0xE0) * 4096 + (b1 - 0x80) * 64 + (b2 - 0x80), r)
        else none
      | _ => none
    else if b0 < 0xF5 then
      match rest with
      | b1 :: b2 :: b3 :: r =>
        if contLo4 b0 ≤ b1 ∧ b1 < contHi4 b0 ∧ 0x80 ≤ b2 ∧ b2 < 0xC0 ∧ 0x80 ≤ b3 ∧ b3 < 0xC0 then
          some ((b0 - 0xF0) * 262144 + (b1 - 0x80) * 4096 + (b2 - 0x80) * 64 + (b3 - 0x80), r)
        else none
      | _ => none
    else none

/-- Fuelled decode loop; with fuel at least the buffer length it decodes
until the first error.  Returns (decoded scalar values, undecoded suffix
beginning at the first invalid byte; `[]` on full success). -/
def pyDecodeAux : Nat → List Nat → List Nat × List Nat
  | 0, l => ([], l)
  | fuel + 1, l =>
    match utf8DecodeOne l with
    | none => ([], l)
    | some (cp, r) =>
      let p := pyDecodeAux fuel r
      (cp :: p.1, p.2)

/-- CPython `bytes.decode("utf-8")`: decoded prefix and the suffix from
the first error position (`e.start = l.length - suffix.length`). -/
def pyDecode (l : List Nat) : List Nat × List Nat := pyDecodeAux l.length l

/-- One iteration of the byte-accumulation block of
`forward_to_n8n_stream` (main_simple.py lines 171-189): append the chunk,
try a full decode, on error split at `e.start` when positive, otherwise
retain the whole buffer and emit nothing. -/
def feedStep (byteBuffer chunk : List Nat) : List Nat × List Nat :=
  let buf := byteBuffer ++ chunk
  let d := pyDecode buf
  if d.2 = [] then (d.1, [])
  else if buf.length - d.2.length > 0 then (d.1, d.2)
  else ([], buf)

/-- Feed a sequence of network chunks through the decoder step,
accumulating the emitted text (as scalar values) and carrying the byte
remainder. -/
def feedList : List Nat → List Nat → List (List Nat) → List Nat × List Nat
  | acc, buf, [] => (acc, buf)
  | acc, buf, chunk :: rest =>
    let s := feedStep buf chunk
    feedList (acc ++ s.1) s.2 rest

/-- Concatenation of a chunk sequence. -/
def flattenChunks : List (List Nat) → List Nat
  | [] => []
  | c :: r => c ++ flattenChunks r

/-- `t` is an initial segment of `l`. -/
def isPre (t l : List Nat) : Prop := ∃ u, t ++ u = l

/-- The byte remainder `t` is consistent with the still-unproduced
character stream `r`: either empty, or a strict, non-empty initial
segment of the encoding of the next character. -/
def TailOf (t : List Nat) (r : List Char) : Prop :=
  t = [] ∨ ∃ c r', r = c :: r' ∧ t ≠ [] ∧
    t.length < (utf8EncodeChar c).length ∧ isPre t (utf8EncodeChar c)

/-! ### Stream teardown (main_simple.py lines 227-256)

After the chunk loop ends normally, lines 227-231 flush the byte
remainder: `if byte_buffer: remaining_str = byte_buffer.decode('utf-8',
errors='replace'); buffer += remaining_str`, substituting U+FFFD
placeholders for bytes that never became decodable.  The outer
`except` handler (lines 252-256) instead yields the error message and
`[DONE]` without reaching that flush, dropping the remainder.  CPython's
`errors='replace'` handler replaces each maximal subpart of an
ill-formed sequence - the lead byte together with the longest run of
continuation bytes valid in their positions - with one U+FFFD and
resumes at the first offending byte. -/

/-- Length of the maximal subpart at the front of a byte list on which
`utf8DecodeOne` fails: the lead byte plus the continuation bytes that
are valid in their positions (CPython's replace-handler error span,
`e.end - e.start`). -/
def utf8InvalidSpan : List Nat → Nat
  | [] => 1
  | b0 :: rest =>
    if b0 < 0xC2 then 1
    else if b0 < 0xE0 then 1
    else if b0 < 0xF0 then
      match rest with
      | b1 :: _ => if contLo3 b0 ≤ b1 ∧ b1 < contHi3 b0 then 2 else 1
      | [] => 1
    else if b0 < 0xF5 then
      match rest with
      | b1 :: b2 :: _ =>
        if contLo4 b0 ≤ b1 ∧ b1 < contHi4 b0 then
          (if 0x80 ≤ b2 ∧ b2 < 0xC0 then 3 else 2)
        else 1
      | [b1] => if contLo4 b0 ≤ b1 ∧ b1 < contHi4 b0 then 2 else 1
      | [] => 1
    else 1

/-- Fuelled `errors='replace'` decode loop: decode scalars normally and
substitute one U+FFFD per maximal invalid subpart. -/
def pyDecodeReplaceAux : Nat → List Nat → List Nat
  | 0, _ => []
  | _ + 1, [] => []
  | fuel + 1, b0 :: rest =>
    match utf8DecodeOne (b0 :: rest) with
    | some (cp, r) => cp :: pyDecodeReplaceAux fuel r
    | none =>
      0xFFFD :: pyDecodeReplaceAux fuel ((b0 :: rest).drop (utf8InvalidSpan (b0 :: rest)))

/-- CPython `bytes.decode("utf-8", errors="replace")`. -/
def pyDecodeReplace (l : List Nat) : List Nat := pyDecodeReplaceAux l.length l

/-- The teardown flush of main_simple.py lines 227-231: when the byte
remainder is non-empty at normal stream end, decode it with
`errors='replace'` and append the result to the text buffer. -/
def teardownFlush (byteBuffer : List Nat) : List Nat :=
  if byteBuffer = [] then [] else pyDecodeReplace byteBuffer

/-- How the upstream byte stream ended: normal completion, or an
exception escaping to the outer handler. -/
inductive StreamEnd where
  | ok : StreamEnd
  | exn : String → StreamEnd
deriving DecidableEq

/-- Text recovered from the byte remainder at relay teardown: the
normal-completion path runs the replace-decode flush (lines 227-231);
the exception path (lines 252-256) yields the error frame and `[DONE]`
without flushing, so the remainder is dropped with no substitution. -/
def relayTeardown (byteBuffer : List Nat) : StreamEnd → List Nat
  | StreamEnd.ok => teardownFlush byteBuffer
  | StreamEnd.exn _ => []

/-! ## OutboundEncoder: SSE escaping and framing

main_simple.py line 206: `escaped_content = content.replace('\n','\\n').replace('\r','\\r')`
then `sse_data = f"data: {escaped_content}\n\n"`.
src/services/sse_manager.py lines 132-137 (`_format_sse_message`):
`if isinstance(data, dict): data = json.dumps(data)` then
`return f"event: {event}\ndata: {data}\n\n"` - a string payload is
embedded verbatim, without any escaping. -/

/-- Python `str.replace` with a single-character needle. -/
def pyReplace : List Char → Char → List Char → List Char
  | [], _, _ => []
  | a :: s, c, r => if a = c then r ++ pyReplace s c r else a :: pyReplace s c r

/-- The two-pass escaping of main_simple.py:
`content.replace('\n','\\n').replace('\r','\\r')`. -/
def escapeSseContent (s : List Char) : List Char :=
  pyReplace (pyReplace s '\n' ['\\', 'n']) '\r' ['\\', 'r']

/-- String form of the SSE content escaping. -/
def escapeSseStr (s : String) : String := String.mk (escapeSseContent s.data)

/-- The outbound frame of the main_simple relay for one content value:
`data: <escaped>\n\n`. -/
def sseFrameSimple (content : List Char) : List Char :=
  "data: ".data ++ escapeSseContent content ++ ['\n', '\n']

/-- `SSEConnectionManager._format_sse_message` applied to a string
payload: `event: {event}\ndata: {data}\n\n`, the payload embedded
verbatim (dict payloads go through `json.dumps` first; string payloads,
as here, are not transformed at all). -/
def formatSseMessageStr (event : List Char) (data : List Char) : List Char :=
  "event: ".data ++ event ++ ['\n'] ++ "data: ".data ++ data ++ ['\n', '\n']

/-! ## EventInterpreter / item frames (claim C4)

The upstream NDJSON contract (spec section 6) has `content` as a string
payload; a parsed `{"type":"item", ...}` object is modelled by its
`content` field: absent, JSON `null`, or a string.
main_simple.py lines 201-215: `content = json_obj.get("content", "")`
then `if content is not None: yield f"data: {escaped}\n\n"`.
main_production.py lines 280-293: `content = json_obj.get("content", "")`
then `if content:` (Python truthiness) before yielding one frame whose
payload is the re-serialized JSON object (payload serialization is
abstracted: we record the content string carried by the frame). -/

/-- The value of the `content` field of a parsed item object. -/
inductive JContent where
  | null : JContent
  | str : String → JContent
deriving DecidableEq

/-- Python `json_obj.get("content", "")`: the default `""` is used when
the field is absent. -/
def getContentD : Option JContent → JContent
  | none => JContent.str ""
  | some v => v

/-- Python truthiness of a content value (`None` and `""` are falsy). -/
def pyTruthyContent : JContent → Bool
  | JContent.null => false
  | JContent.str s => !(s == "")

/-- An outbound frame of the client-facing stream. -/
inductive CFrame where
  | content : String → CFrame
  | done : CFrame
  | errorF : String → CFrame
deriving DecidableEq

/-- Frames emitted by main_simple.py for one parsed item line, as a
function of its `content` field (`none` = field absent). -/
def mainSimpleItemFrames (content? : Option JContent) : List CFrame :=
  match getContentD content? with
  | JContent.null => []
  | JContent.str s => [CFrame.content (escapeSseStr s)]

/-- Frames emitted by main_production.py for one parsed item line, as a
function of its `content` field (`none` = field absent). -/
def mainProdItemFrames (content? : Option JContent) : List CFrame :=
  match getContentD content? with
  | c => if pyTruthyContent c then [CFrame.content (match c with
      | JContent.str s => s
      | JContent.null => "")] else []

/-! ## chat.py `enhanced_sse_stream` (claim C1)

src/api/v1/endpoints/chat.py lines 105-146: iterate the messages yielded
by `send_message_with_retry`; `event == "message"` yields one content
frame (payload formatting via `json.dumps` abstracted to the content
string); `event == "complete"` yields `data: [DONE]` and breaks;
`event == "error"` yields the error payload and breaks - with no
`[DONE]` after it; any other event (e.g. `retry`) is skipped; when the
message stream is exhausted the generator simply ends. -/

/-- A message produced by `OptimizedN8NClient.send_message_with_retry`. -/
inductive NMsg where
  | message : String → NMsg
  | complete : NMsg
  | errorM : String → NMsg
  | retryM : Nat → Nat → NMsg
deriving DecidableEq

/-- The frame sequence emitted by `enhanced_sse_stream` for a given
message sequence. -/
def enhancedSseStream : List NMsg → List CFrame
  | [] => []
  | NMsg.message d :: rest => CFrame.content d :: enhancedSseStream rest
  | NMsg.complete :: _ => [CFrame.done]
  | NMsg.errorM e :: _ => [CFrame.errorF e]
  | NMsg.retryM _ _ :: rest => enhancedSseStream rest

/-! ## RetryOrchestrator (claim C6)

src/services/sse_manager.py lines 266-317
(`OptimizedN8NClient.send_message_with_retry`): for
`attempt in range(self.retry_attempts)`, stream `_stream_request`,
forwarding each message to the caller as produced; on success `return`;
on any exception - also one thrown after messages were already forwarded -
if `attempt < retry_attempts - 1`, sleep `retry_delay * 2**attempt`
(base delay 1), yield a retry notification and try again; after the loop
yield one error message.  An attempt is modelled by the messages it
yields before either completing (`false`) or raising (`true`). -/

/-- A relay message of the retry orchestrator. -/
inductive RMsg where
  | data : String → RMsg
  | retry : Nat → Nat → RMsg
  | err : RMsg
deriving DecidableEq

/-- The retry loop from attempt `i` with `k` attempts remaining:
`out i = (messages yielded by attempt i, whether it raised)`. -/
def runRetryGo (out : Nat → List RMsg × Bool) : Nat → Nat → List RMsg
  | _, 0 => [RMsg.err]
  | i, k + 1 =>
    (out i).1 ++
      (if (out i).2 then
        (if 0 < k then RMsg.retry (i + 1) (2 ^ i) :: runRetryGo out (i + 1) k
         else [RMsg.err])
       else [])

/-- `send_message_with_retry`: the full message sequence forwarded to the
caller, given the behaviour of each attempt. -/
def sendWithRetry (out : Nat → List RMsg × Bool) (maxAttempts : Nat) : List RMsg :=
  runRetryGo out 0 maxAttempts

/-! ## CircuitBreaker (claim C7)

src/middleware/error_handling.py lines 280-361
(`CircuitBreakerMiddleware`).  The per-service dicts collapse to one
state record (single key `n8n_service`); dict absence coincides with the
defaults (count 0, last-failure 0, closed). -/

/-- Circuit-breaker state for the single guarded service key. -/
structure CBState where
  failureCount : Nat
  lastFailure : Nat
  circuitOpen : Bool
deriving DecidableEq

/-- `_is_circuit_open`: when open and the recovery timeout has strictly
elapsed since the last failure, reset the breaker (closed, count 0) and
report closed; otherwise report the open flag unchanged. -/
def cbIsOpen (st : CBState) (now recoveryTimeout : Nat) : Bool × CBState :=
  if !st.circuitOpen then (false, st)
  else if now - st.lastFailure > recoveryTimeout then
    (false, { st with circuitOpen := false, failureCount := 0 })
  else (true, st)

/-- `_record_failure`: bump the count, stamp the failure time, open the
circuit when the count reaches the threshold. -/
def cbRecordFailure (st : CBState) (now threshold : Nat) : CBState :=
  { failureCount := st.failureCount + 1,
    lastFailure := now,
    circuitOpen := if st.failureCount + 1 ≥ threshold then true else st.circuitOpen }

/-- `_record_success`: `max(0, count - 1)` (`Nat` subtraction). -/
def cbRecordSuccess (st : CBState) : CBState :=
  { st with failureCount := st.failureCount - 1 }

/-- Outcome of the guarded request handler: a response status, or an
exception escaping it. -/
inductive CBOutcome where
  | ok : Nat → CBOutcome
  | exn : CBOutcome
deriving DecidableEq

/-- `CircuitBreakerMiddleware.dispatch` for a `/api/v1/chat/message`
request at time `now`: first component is `true` when the request was
short-circuited with the synthetic 503 (the handler never invoked). -/
def cbDispatch (st : CBState) (now threshold recoveryTimeout : Nat)
    (outcome : CBOutcome) : Bool × CBState :=
  let c := cbIsOpen st now recoveryTimeout
  if c.1 then (true, c.2)
  else
    match outcome with
    | CBOutcome.ok status =>
      if status < 500 then (false, cbRecordSuccess c.2)
      else (false, cbRecordFailure c.2 now threshold)
    | CBOutcome.exn => (false, cbRecordFailure c.2 now threshold)

/-! ## ConnectionRegistry (claims C8, C10)

src/services/sse_manager.py lines 49-72
(`SSEConnectionManager.create_connection`).  The two Python dicts are
association lists with dict-assignment semantics (replace in place, else
append); `asyncio.Queue()` identity is modelled by a fresh tag drawn from
a counter, so that replacing a queue is observable. -/

/-- One registered SSE connection (`SSEConnection` dataclass). -/
structure SSEConnection where
  sessionId : String
  clientIp : String
  createdAt : Nat
  lastActivity : Nat
  isActive : Bool
deriving DecidableEq

/-- Manager state: the two keyed maps, a queue-identity counter, and the
configured ceiling (`max_connections = 10000` in `__init__`). -/
structure ManagerSt where
  activeConnections : List (String × SSEConnection)
  connectionQueues : List (String × Nat)
  nextQueue : Nat
  maxConnections : Nat
deriving DecidableEq

/-- Python dict assignment `d[k] = v` on an association list. -/
def dictInsert {α : Type} : List (String × α) → String → α → List (String × α)
  | [], k, v => [(k, v)]
  | (k', v') :: rest, k, v =>
    if k' = k then (k, v) :: rest else (k', v') :: dictInsert rest k v

/-- Python dict lookup `d.get(k)`. -/
def dictLookup {α : Type} : List (String × α) → String → Option α
  | [], _ => none
  | (k', v') :: rest, k => if k' = k then some v' else dictLookup rest k

/-- The manager state constructed in `SSEConnectionManager.__init__`. -/
def initManager : ManagerSt :=
  { activeConnections := [], connectionQueues := [], nextQueue := 0,
    maxConnections := 10000 }

/-- `create_connection(session_id, client_ip)` observed at whole second
`t`: id is `f"{session_id}:{int(time.time())}"`; reject with HTTP 503
when `len(active_connections) >= max_connections`; otherwise register
the connection and a fresh queue under that id (dict assignment
overwrites any entry already stored under the same id). -/
def createConnection (st : ManagerSt) (sessionId clientIp : String) (t : Nat) :
    Except Nat (String × ManagerSt) :=
  let connectionId := sessionId ++ ":" ++ toString t
  if st.activeConnections.length ≥ st.maxConnections then Except.error 503
  else
    Except.ok (connectionId,
      { st with
        activeConnections :=
          dictInsert st.activeConnections connectionId
            ⟨sessionId, clientIp, t, t, true⟩,
        connectionQueues := dictInsert st.connectionQueues connectionId st.nextQueue,
        nextQueue := st.nextQueue + 1 })

/-- The admission step of the `/message` endpoint (chat.py lines 53-54):
`create_connection` is awaited before any n8n call, and its HTTP 503
propagates out of `send_message`, so the upstream is reached only when
admission succeeds. -/
def sendMessageReachesUpstream (st : ManagerSt) (sessionId clientIp : String)
    (t : Nat) : Bool :=
  match createConnection st sessionId clientIp t with
  | Except.error _ => false
  | Except.ok _ => true

/-! ## Heartbeat and cleanup loops (claim C9)

src/services/sse_manager.py: `send_message` (lines 86-93) puts the
message on the connection's queue and refreshes `last_activity`;
`_heartbeat_loop` (lines 139-158) sleeps `heartbeat_interval` and sends
a heartbeat through `send_message` to every connection that has a queue;
`_cleanup_loop` (lines 160-180) evicts connections with
`now - last_activity > connection_timeout`.  A run is a time-stamped
sequence of loop firings over a registry of connections. -/

/-- `heartbeat_interval = 30` seconds. -/
def heartbeatInterval : Nat := 30

/-- `connection_timeout = 300` seconds. -/
def connectionTimeout : Nat := 300

/-- A registry entry as the loops see it: its activity stamp and whether
it still holds a message queue. -/
structure RConn where
  lastActivity : Nat
  hasQueue : Bool
deriving DecidableEq

/-- A firing of one of the two background loops. -/
inductive REv where
  | hb : Nat → REv
  | cleanup : Nat → REv
deriving DecidableEq

/-- One heartbeat sweep at time `t`: `send_message` refreshes
`last_activity` of every connection that has a queue. -/
def hbStep (t : Nat) (reg : List RConn) : List RConn :=
  reg.map fun c => if c.hasQueue then { c with lastActivity := t } else c

/-- One cleanup sweep at time `now`: keep exactly the connections with
`now - last_activity <= connection_timeout`. -/
def cleanupStep (now timeout : Nat) (reg : List RConn) : List RConn :=
  reg.filter fun c => decide (now - c.lastActivity ≤ timeout)

/-- Run a sequence of loop firings over the registry. -/
def runEvents (timeout : Nat) : List RConn → List REv → List RConn
  | reg, [] => reg
  | reg, REv.hb t :: rest => runEvents timeout (hbStep t reg) rest
  | reg, REv.cleanup t :: rest => runEvents timeout (cleanupStep t timeout reg) rest

/-- The heartbeat loop is running on schedule: every cleanup firing at
time `t` is preceded by a heartbeat at a time `th ≤ t` with
`t ≤ th + hbI`.  `lastHb` is the time of the most recent heartbeat. -/
def regularFrom (hbI : Nat) : Option Nat → List REv → Bool
  | _, [] => true
  | _, REv.hb t :: rest => regularFrom hbI (some t) rest
  | none, REv.cleanup _ :: _ => false
  | some th, REv.cleanup t :: rest =>
    decide (th ≤ t ∧ t ≤ th + hbI) && regularFrom hbI (some th) rest

/-! ## Helper lemmas -/

theorem appCancelLeft {α : Type} : ∀ (a : List α) {b c : List α}, a ++ b = a ++ c → b = c := by
  intro a
  induction a with
  | nil => intro b c h; simpa using h
  | cons x xs ih => intro b c h; apply ih; simpa using h

theorem appSplit {α : Type} :
    ∀ (a b u v : List α), a ++ u = b ++ v → a.length ≤ b.length → ∃ w, a ++ w = b := by
  intro a
  induction a with
  | nil => intro b _ _ _ _; exact ⟨b, rfl⟩
  | cons x xs ih =>
    intro b u v h hab
    cases b with
    | nil => simp at hab
    | cons y ys =>
      simp only [List.cons_append, List.cons.injEq] at h
      obtain ⟨rfl, h2⟩ := h
      obtain ⟨w, hw⟩ := ih ys u v h2 (by simpa using hab)
      exact ⟨w, by simp [hw]⟩

theorem isPre_of_length_le {a b l : List Nat} (ha : isPre a l) (hb : isPre b l)
    (hab : a.length ≤ b.length) : isPre a b := by
  obtain ⟨u, hu⟩ := ha
  obtain ⟨v, hv⟩ := hb
  exact appSplit a b u v (hu.trans hv.symm) hab

theorem charValid (c : Char) :
    c.toNat < 0xD800 ∨ (0xE000 ≤ c.toNat ∧ c.toNat < 0x110000) := by
  have h := c.valid
  unfold UInt32.isValidChar Nat.isValidChar at h
  have he : c.toNat = c.val.toNat := rfl
  rcases h with h | ⟨h1, h2⟩
  · exact Or.inl (by omega)
  · exact Or.inr ⟨by omega, by omega⟩

theorem encCp_length_pos (n : Nat) : 0 < (encCp n).length := by
  unfold encCp
  split_ifs <;> simp

theorem encCp_length_le (n : Nat) : (encCp n).length ≤ 4 := by
  unfold encCp
  split_ifs <;> simp

theorem utf8Encode_append (s t : List Char) :
    utf8Encode (s ++ t) = utf8Encode s ++ utf8Encode t := by
  induction s with
  | nil => simp [utf8Encode]
  | cons c cs ih => simp [utf8Encode, ih]

theorem utf8Encode_eq_nil {s : List Char} (h : utf8Encode s = []) : s = [] := by
  cases s with
  | nil => rfl
  | cons c cs =>
    exfalso
    have h1 := encCp_length_pos c.toNat
    have h2 : (utf8Encode (c :: cs)).length = 0 := by rw [h]; rfl
    rw [utf8Encode, List.length_append] at h2
    unfold utf8EncodeChar at h2
    omega

theorem flattenChunks_append (a b : List (List Nat)) :
    flattenChunks (a ++ b) = flattenChunks a ++ flattenChunks b := by
  induction a with
  | nil => simp [flattenChunks]
  | cons c cs ih => simp [flattenChunks, ih]

/-! ## Decoder correctness lemmas -/

theorem utf8DecodeOne_length {l : List Nat} {cp : Nat} {r : List Nat}
    (h : utf8DecodeOne l = some (cp, r)) : r.length < l.length := by
  rcases l with _ | ⟨b0, _ | ⟨b1, _ | ⟨b2, _ | ⟨b3, rest⟩⟩⟩⟩ <;>
    simp [utf8DecodeOne] at h <;>
    try split_ifs at h
  all_goals simp_all
  all_goals omega

theorem pyDecodeAux_congr :
    ∀ f1 f2 l, l.length ≤ f1 → l.length ≤ f2 → pyDecodeAux f1 l = pyDecodeAux f2 l := by
  intro f1
  induction f1 with
  | zero =>
    intro f2 l h1 _
    have hl : l = [] := by cases l <;> simp_all
    subst hl
    cases f2 <;> simp [pyDecodeAux, utf8DecodeOne]
  | succ f ih =>
    intro f2 l h1 h2
    cases f2 with
    | zero =>
      have hl : l = [] := by cases l <;> simp_all
      subst hl
      simp [pyDecodeAux, utf8DecodeOne]
    | succ f2' =>
      simp only [pyDecodeAux]
      cases h : utf8DecodeOne l with
      | none => rfl
      | some p =>
        obtain ⟨cp, r⟩ := p
        have hlen := utf8DecodeOne_length h
        dsimp only
        rw [ih f2' r (by omega) (by omega)]

theorem utf8DecodeOne_enc (n : Nat)
    (hn : n < 0xD800 ∨ (0xE000 ≤ n ∧ n < 0x110000)) (rest : List Nat) :
    utf8DecodeOne (encCp n ++ rest) = some (n, rest) := by
  rcases Nat.lt_or_ge n 0x80 with h1 | h1
  · rw [encCp, if_pos h1]
    simp only [List.cons_append, List.nil_append, utf8DecodeOne]
    rw [if_pos h1]
  · rcases Nat.lt_or_ge n 0x800 with h2 | h2
    · rw [encCp, if_neg (by omega), if_pos h2]
      simp only [List.cons_append, List.nil_append, utf8DecodeOne]
      rw [if_neg (by omega), if_neg (by omega), if_pos (by omega), if_pos (by omega)]
      simp only [Option.some.injEq, Prod.mk.injEq]
      exact ⟨by omega, trivial⟩
    · rcases Nat.lt_or_ge n 0x10000 with h3 | h3
      · rw [encCp, if_neg (by omega), if_neg (by omega), if_pos h3]
        simp only [List.cons_append, List.nil_append, utf8DecodeOne, contLo3, contHi3]
        rw [if_neg (by omega), if_neg (by omega), if_neg (by omega), if_pos (by omega),
          if_pos (by split_ifs <;> omega)]
        simp only [Option.some.injEq, Prod.mk.injEq]
        exact ⟨by omega, trivial⟩
      · rw [encCp, if_neg (by omega), if_neg (by omega), if_neg (by omega)]
        simp only [List.cons_append, List.nil_append, utf8DecodeOne, contLo4, contHi4]
        rw [if_neg (by omega), if_neg (by omega), if_neg (by omega), if_neg (by omega),
          if_pos (by omega), if_pos (by split_ifs <;> omega)]
        simp only [Option.some.injEq, Prod.mk.injEq]
        exact ⟨by omega, trivial⟩

theorem utf8DecodeOne_incomplete {n : Nat}
    (hn : n < 0xD800 ∨ (0xE000 ≤ n ∧ n < 0x110000)) {t : List Nat}
    (hne : t ≠ []) (hlt : t.length < (encCp n).length) (hpre : isPre t (encCp n)) :
    utf8DecodeOne t = none := by
  obtain ⟨u, hu⟩ := hpre
  rcases Nat.lt_or_ge n 0x80 with h1 | h1
  · rw [encCp, if_pos h1] at hu hlt
    rcases t with _ | ⟨x, t'⟩
    · exact absurd rfl hne
    · simp at hlt
  · rcases Nat.lt_or_ge n 0x800 with h2 | h2
    · rw [encCp, if_neg (by omega), if_pos h2] at hu hlt
      rcases t with _ | ⟨x, _ | ⟨y, t'⟩⟩
      · exact absurd rfl hne
      · simp only [List.cons_append, List.nil_append, List.cons.injEq] at hu
        obtain ⟨rfl, -⟩ := hu
        simp only [utf8DecodeOne]
        rw [if_neg (by omega), if_neg (by omega), if_pos (by omega)]
      · simp at hlt; omega
    · rcases Nat.lt_or_ge n 0x10000 with h3 | h3
      · rw [encCp, if_neg (by omega), if_neg (by omega), if_pos h3] at hu hlt
        rcases t with _ | ⟨x, _ | ⟨y, _ | ⟨z, t'⟩⟩⟩
        · exact absurd rfl hne
        · simp only [List.cons_append, List.nil_append, List.cons.injEq] at hu
          obtain ⟨rfl, -⟩ := hu
          simp only [utf8DecodeOne]
          rw [if_neg (by omega), if_neg (by omega), if_neg (by omega), if_pos (by omega)]
        · simp only [List.cons_append, List.nil_append, List.cons.injEq] at hu
          obtain ⟨rfl, hu2⟩ := hu
          simp only [utf8DecodeOne]
          rw [if_neg (by omega), if_neg (by omega), if_neg (by omega), if_pos (by omega)]
        · simp at hlt; omega
      · rw [encCp, if_neg (by omega), if_neg (by omega), if_neg (by omega)] at hu hlt
        rcases t with _ | ⟨x, _ | ⟨y, _ | ⟨z, _ | ⟨w, t'⟩⟩⟩⟩
        · exact absurd rfl hne
        · simp only [List.cons_append, List.nil_append, List.cons.injEq] at hu
          obtain ⟨rfl, -⟩ := hu
          simp only [utf8DecodeOne]
          rw [if_neg (by omega), if_neg (by omega), if_neg (by omega), if_neg (by omega),
            if_pos (by omega)]
        · simp only [List.cons_append, List.nil_append, List.cons.injEq] at hu
          obtain ⟨rfl, hu2⟩ := hu
          simp only [utf8DecodeOne]
          rw [if_neg (by omega), if_neg (by omega), if_neg (by omega), if_neg (by omega),
            if_pos (by omega)]
        · simp only [List.cons_append, List.nil_append, List.cons.injEq] at hu
          obtain ⟨rfl, hu2⟩ := hu
          simp only [utf8DecodeOne]
          rw [if_neg (by omega), if_neg (by omega), if_neg (by omega), if_neg (by omega),
            if_pos (by omega)]
        · simp at hlt; omega

theorem pyDecode_none {t : List Nat} (h : utf8DecodeOne t = none) :
    pyDecode t = ([], t) := by
  unfold pyDecode
  cases t with
  | nil => rfl
  | cons x xs => simp [pyDecodeAux, h]

theorem pyDecodeAux_encode :
    ∀ (s : List Char) (t : List Nat) (fuel : Nat),
      (utf8Encode s ++ t).length ≤ fuel →
      pyDecodeAux fuel (utf8Encode s ++ t) =
        ((s.map Char.toNat) ++ (pyDecode t).1, (pyDecode t).2) := by
  intro s
  induction s with
  | nil =>
    intro t fuel hf
    simp only [utf8Encode, List.nil_append, List.map_nil]
    rw [pyDecodeAux_congr fuel t.length t (by simpa [utf8Encode] using hf) le_rfl]
    rfl
  | cons c cs ih =>
    intro t fuel hf
    have hv := charValid c
    have hpos := encCp_length_pos c.toNat
    have hlentot : (utf8Encode (c :: cs) ++ t).length =
        (encCp c.toNat).length + (utf8Encode cs ++ t).length := by
      rw [utf8Encode, utf8EncodeChar]
      simp [List.length_append]
    cases fuel with
    | zero => omega
    | succ f =>
      have hdec : utf8DecodeOne (utf8Encode (c :: cs) ++ t) =
          some (c.toNat, utf8Encode cs ++ t) := by
        rw [utf8Encode, utf8EncodeChar, List.append_assoc]
        exact utf8DecodeOne_enc c.toNat hv (utf8Encode cs ++ t)
      have hlen : (utf8Encode cs ++ t).length ≤ f := by omega
      simp only [pyDecodeAux, hdec, ih t f hlen]
      simp

theorem pyDecode_encode_tail (s : List Char) {t : List Nat} (r : List Char)
    (ht : TailOf t r) :
    pyDecode (utf8Encode s ++ t) = (s.map Char.toNat, t) := by
  have h1 := pyDecodeAux_encode s t (utf8Encode s ++ t).length le_rfl
  have h2 : pyDecode t = ([], t) := by
    rcases ht with rfl | ⟨c, r', -, hne, hlt, hpre⟩
    · rfl
    · exact pyDecode_none
        (utf8DecodeOne_incomplete (charValid c) hne
          (by simpa [utf8EncodeChar] using hlt) (by simpa [utf8EncodeChar] using hpre))
  unfold pyDecode
  rw [h1, h2]
  simp

theorem feedStep_spec {b c : List Nat} (d : List Char) (t : List Nat) (r : List Char)
    (h : b ++ c = utf8Encode d ++ t) (ht : TailOf t r) :
    feedStep b c = (d.map Char.toNat, t) := by
  simp only [feedStep]
  rw [h, pyDecode_encode_tail d r ht]
  rcases ht with rfl | ⟨c', r', -, hne, hlt, hpre⟩
  · simp
  · rw [if_neg (by simpa using hne)]
    by_cases hd : d = []
    · subst hd
      rw [if_neg (by simp [utf8Encode])]
      simp [utf8Encode]
    · have hd2 : utf8Encode d ≠ [] := fun hh => hd (utf8Encode_eq_nil hh)
      have hd3 : 0 < (utf8Encode d).length := by
        cases hh : utf8Encode d with
        | nil => exact absurd hh hd2
        | cons a l => simp
      rw [if_pos (by simp [List.length_append]; omega)]

theorem decomposePre :
    ∀ (s : List Char) (p : List Nat), isPre p (utf8Encode s) →
      ∃ d r t, s = d ++ r ∧ p = utf8Encode d ++ t ∧ TailOf t r := by
  intro s
  induction s with
  | nil =>
    intro p hp
    obtain ⟨u, hu⟩ := hp
    simp only [utf8Encode, List.append_eq_nil] at hu
    exact ⟨[], [], [], rfl, by simp [utf8Encode, hu.1], Or.inl rfl⟩
  | cons c cs ih =>
    intro p hp
    by_cases hl : p.length < (utf8EncodeChar c).length
    · have hpc : isPre p (utf8EncodeChar c) :=
        isPre_of_length_le hp ⟨utf8Encode cs, rfl⟩ (le_of_lt hl)
      refine ⟨[], c :: cs, p, rfl, by simp [utf8Encode], ?_⟩
      by_cases hpe : p = []
      · exact Or.inl hpe
      · exact Or.inr ⟨c, cs, rfl, hpe, hl, hpc⟩
    · push_neg at hl
      have hcp : isPre (utf8EncodeChar c) p :=
        isPre_of_length_le ⟨utf8Encode cs, rfl⟩ hp hl
      obtain ⟨p2, hp2⟩ := hcp
      obtain ⟨u, hu⟩ := hp
      have hp2pre : isPre p2 (utf8Encode cs) := by
        refine ⟨u, appCancelLeft (utf8EncodeChar c) ?_⟩
        calc utf8EncodeChar c ++ (p2 ++ u)
            = (utf8EncodeChar c ++ p2) ++ u := by rw [List.append_assoc]
          _ = p ++ u := by rw [hp2]
          _ = utf8Encode (c :: cs) := hu
          _ = utf8EncodeChar c ++ utf8Encode cs := rfl
      obtain ⟨d, r, t, hdr, hpt, ht⟩ := ih p2 hp2pre
      refine ⟨c :: d, r, t, by simp [hdr], ?_, ht⟩
      calc p = utf8EncodeChar c ++ p2 := hp2.symm
        _ = utf8EncodeChar c ++ (utf8Encode d ++ t) := by rw [hpt]
        _ = utf8Encode (c :: d) ++ t := by simp [utf8Encode, List.append_assoc]

theorem feedList_spec :
    ∀ (chunks : List (List Nat)) (r : List Char) (t : List Nat) (acc : List Nat),
      TailOf t r → isPre (t ++ flattenChunks chunks) (utf8Encode r) →
      ∃ d r' t', r = d ++ r' ∧ TailOf t' r' ∧
        t ++ flattenChunks chunks = utf8Encode d ++ t' ∧
        feedList acc t chunks = (acc ++ d.map Char.toNat, t') := by
  intro chunks
  induction chunks with
  | nil =>
    intro r t acc ht _
    exact ⟨[], r, t, rfl, ht, by simp [flattenChunks, utf8Encode], by simp [feedList]⟩
  | cons chunk rest ih =>
    intro r t acc ht hp
    have hp1 : isPre (t ++ chunk) (utf8Encode r) := by
      obtain ⟨u, hu⟩ := hp
      refine ⟨flattenChunks rest ++ u, ?_⟩
      calc (t ++ chunk) ++ (flattenChunks rest ++ u)
          = (t ++ flattenChunks (chunk :: rest)) ++ u := by
            simp [flattenChunks, List.append_assoc]
        _ = utf8Encode r := hu
    obtain ⟨d1, r1, t1, hdr1, hpt1, ht1⟩ := decomposePre r (t ++ chunk) hp1
    have hstep : feedStep t chunk = (d1.map Char.toNat, t1) :=
      feedStep_spec d1 t1 r1 hpt1 ht1
    have hp2 : isPre (t1 ++ flattenChunks rest) (utf8Encode r1) := by
      obtain ⟨u, hu⟩ := hp
      refine ⟨u, appCancelLeft (utf8Encode d1) ?_⟩
      calc utf8Encode d1 ++ ((t1 ++ flattenChunks rest) ++ u)
          = ((utf8Encode d1 ++ t1) ++ flattenChunks rest) ++ u := by
            simp [List.append_assoc]
        _ = ((t ++ chunk) ++ flattenChunks rest) ++ u := by rw [hpt1]
        _ = (t ++ flattenChunks (chunk :: rest)) ++ u := by
            simp [flattenChunks, List.append_assoc]
        _ = utf8Encode r := hu
        _ = utf8Encode d1 ++ utf8Encode r1 := by rw [hdr1, utf8Encode_append]
    obtain ⟨d2, r2, t2, hdr2, ht2, hpt2, hfeed2⟩ :=
      ih r1 t1 (acc ++ d1.map Char.toNat) ht1 hp2
    refine ⟨d1 ++ d2, r2, t2, ?_, ht2, ?_, ?_⟩
    · rw [hdr1, hdr2, List.append_assoc]
    · calc t ++ flattenChunks (chunk :: rest)
          = (t ++ chunk) ++ flattenChunks rest := by
            simp [flattenChunks, List.append_assoc]
        _ = (utf8Encode d1 ++ t1) ++ flattenChunks rest := by rw [hpt1]
        _ = utf8Encode d1 ++ (t1 ++ flattenChunks rest) := by rw [List.append_assoc]
        _ = utf8Encode d1 ++ (utf8Encode d2 ++ t2) := by rw [hpt2]
        _ = utf8Encode (d1 ++ d2) ++ t2 := by
            rw [utf8Encode_append, List.append_assoc]
    · calc feedList acc t (chunk :: rest)
          = feedList (acc ++ d1.map Char.toNat) t1 rest := by
            simp only [feedList, hstep]
        _ = ((acc ++ d1.map Char.toNat) ++ d2.map Char.toNat, t2) := hfeed2
        _ = (acc ++ (d1 ++ d2).map Char.toNat, t2) := by
            simp [List.map_append, List.append_assoc]

theorem utf8DecodeOne_suffix {l : List Nat} {cp : Nat} {r : List Nat}
    (h : utf8DecodeOne l = some (cp, r)) : ∃ pre, l = pre ++ r := by
  rcases l with _ | ⟨b0, _ | ⟨b1, _ | ⟨b2, _ | ⟨b3, rest⟩⟩⟩⟩ <;>
    simp only [utf8DecodeOne] at h <;>
    try split_ifs at h
  all_goals try simp at h
  all_goals obtain ⟨h1, h2⟩ := h
  all_goals subst h2
  all_goals
    first
      | exact ⟨[b0], rfl⟩
      | exact ⟨[b0, b1], rfl⟩
      | exact ⟨[b0, b1, b2], rfl⟩
      | exact ⟨[b0, b1, b2, b3], rfl⟩

theorem pyDecodeAux_suffix :
    ∀ (fuel : Nat) (l : List Nat), ∃ pre, l = pre ++ (pyDecodeAux fuel l).2 := by
  intro fuel
  induction fuel with
  | zero => intro l; exact ⟨[], rfl⟩
  | succ f ih =>
    intro l
    cases h : utf8DecodeOne l with
    | none => exact ⟨[], by simp [pyDecodeAux, h]⟩
    | some p =>
      obtain ⟨cp, r⟩ := p
      obtain ⟨pre1, hpre1⟩ := utf8DecodeOne_suffix h
      obtain ⟨pre2, hpre2⟩ := ih r
      refine ⟨pre1 ++ pre2, ?_⟩
      simp only [pyDecodeAux, h]
      rw [List.append_assoc, ← hpre2]
      exact hpre1

theorem feedStep_conserves (b c : List Nat) :
    ∃ pre, b ++ c = pre ++ (feedStep b c).2 := by
  obtain ⟨pre, hpre⟩ := pyDecodeAux_suffix (b ++ c).length (b ++ c)
  simp only [feedStep]
  split_ifs with h1 h2
  · exact ⟨b ++ c, by simp⟩
  · exact ⟨pre, hpre⟩
  · exact ⟨[], rfl⟩

theorem utf8InvalidSpan_prefix {n : Nat}
    (hn : n < 0xD800 ∨ (0xE000 ≤ n ∧ n < 0x110000)) {t : List Nat}
    (hne : t ≠ []) (hlt : t.length < (encCp n).length) (hpre : isPre t (encCp n)) :
    utf8InvalidSpan t = t.length := by
  obtain ⟨u, hu⟩ := hpre
  rcases Nat.lt_or_ge n 0x80 with h1 | h1
  · rw [encCp, if_pos h1] at hlt
    rcases t with _ | ⟨x, t'⟩
    · exact absurd rfl hne
    · simp at hlt
  · rcases Nat.lt_or_ge n 0x800 with h2 | h2
    · rw [encCp, if_neg (by omega), if_pos h2] at hu hlt
      rcases t with _ | ⟨x, _ | ⟨y, t'⟩⟩
      · exact absurd rfl hne
      · simp only [List.cons_append, List.nil_append, List.cons.injEq] at hu
        obtain ⟨rfl, -⟩ := hu
        simp only [utf8InvalidSpan, contLo3, contHi3, contLo4, contHi4,
          List.length_cons, List.length_nil]
        split_ifs <;> omega
      · simp at hlt; omega
    · rcases Nat.lt_or_ge n 0x10000 with h3 | h3
      · rw [encCp, if_neg (by omega), if_neg (by omega), if_pos h3] at hu hlt
        rcases t with _ | ⟨x, _ | ⟨y, _ | ⟨z, t'⟩⟩⟩
        · exact absurd rfl hne
        · simp only [List.cons_append, List.nil_append, List.cons.injEq] at hu
          obtain ⟨rfl, -⟩ := hu
          simp only [utf8InvalidSpan, contLo3, contHi3, contLo4, contHi4,
            List.length_cons, List.length_nil]
          split_ifs <;> omega
        · simp only [List.cons_append, List.nil_append, List.cons.injEq] at hu
          obtain ⟨rfl, rfl, -⟩ := hu
          simp only [utf8InvalidSpan, contLo3, contHi3, contLo4, contHi4,
            List.length_cons, List.length_nil]
          split_ifs <;> omega
        · simp at hlt; omega
      · rw [encCp, if_neg (by omega), if_neg (by omega), if_neg (by omega)] at hu hlt
        rcases t with _ | ⟨x, _ | ⟨y, _ | ⟨z, _ | ⟨w, t'⟩⟩⟩⟩
        · exact absurd rfl hne
        · simp only [List.cons_append, List.nil_append, List.cons.injEq] at hu
          obtain ⟨rfl, -⟩ := hu
          simp only [utf8InvalidSpan, contLo3, contHi3, contLo4, contHi4,
            List.length_cons, List.length_nil]
          split_ifs <;> omega
        · simp only [List.cons_append, List.nil_append, List.cons.injEq] at hu
          obtain ⟨rfl, rfl, -⟩ := hu
          simp only [utf8InvalidSpan, contLo3, contHi3, contLo4, contHi4,
            List.length_cons, List.length_nil]
          split_ifs <;> omega
        · simp only [List.cons_append, List.nil_append, List.cons.injEq] at hu
          obtain ⟨rfl, rfl, rfl, -⟩ := hu
          simp only [utf8InvalidSpan, contLo3, contHi3, contLo4, contHi4,
            List.length_cons, List.length_nil]
          split_ifs <;> omega
        · simp at hlt; omega

theorem pyDecodeReplaceAux_nil (fuel : Nat) : pyDecodeReplaceAux fuel [] = [] := by
  cases fuel <;> rfl

theorem teardownFlush_incomplete {n : Nat}
    (hn : n < 0xD800 ∨ (0xE000 ≤ n ∧ n < 0x110000)) {t : List Nat}
    (hne : t ≠ []) (hlt : t.length < (encCp n).length) (hpre : isPre t (encCp n)) :
    teardownFlush t = [0xFFFD] := by
  have hdec : utf8DecodeOne t = none := utf8DecodeOne_incomplete hn hne hlt hpre
  have hspan : utf8InvalidSpan t = t.length := utf8InvalidSpan_prefix hn hne hlt hpre
  rcases t with _ | ⟨b0, rest⟩
  · exact absurd rfl hne
  · rw [teardownFlush, if_neg (by simp), pyDecodeReplace]
    simp only [List.length_cons] at hspan ⊢
    have hdrop : (b0 :: rest).drop (rest.length + 1) = [] := by
      have hl : (b0 :: rest).length = rest.length + 1 := by simp
      rw [← hl, List.drop_length]
    simp only [pyDecodeReplaceAux, hdec, hspan, hdrop, pyDecodeReplaceAux_nil]

/-- C2: for every Unicode string `s` and every partition of its UTF-8
encoding into arbitrary-length byte chunks, feeding the chunks in order
through the frame-decoder step of `forward_to_n8n_stream`
(main_simple.py) yields decoded fragments whose concatenation is exactly
`s`, with an empty final byte remainder. -/
theorem frameDecoder_roundtrip (s : List Char) (chunks : List (List Nat))
    (h : flattenChunks chunks = utf8Encode s) :
    feedList [] [] chunks = (s.map Char.toNat, []) := by
  obtain ⟨d, r', t', hdr, ht', hpt, hfeed⟩ :=
    feedList_spec chunks s [] [] (Or.inl rfl) ⟨[], by simp [h]⟩
  simp only [List.nil_append] at hpt
  rw [h] at hpt
  have henc : utf8Encode s = utf8Encode d ++ utf8Encode r' := by
    rw [hdr, utf8Encode_append]
  have ht'eq : t' = utf8Encode r' := by
    apply appCancelLeft (utf8Encode d)
    rw [← hpt, ← henc]
  rcases ht' with rfl | ⟨c, r'', hre, -, hlt, -⟩
  · have hr : r' = [] := utf8Encode_eq_nil ht'eq.symm
    subst hr
    rw [List.append_nil] at hdr
    subst hdr
    rw [hfeed]
    simp
  · exfalso
    have hlen : t'.length = (utf8EncodeChar c).length + (utf8Encode r'').length := by
      rw [ht'eq, hre]
      show (utf8EncodeChar c ++ utf8Encode r'').length = _
      simp [List.length_append]
    omega

/-- C2 witness: the two-chunk partition `[72, 195] / [169]` of the UTF-8
encoding of `"Hé"` reassembles to exactly `"Hé"`. -/
theorem frameDecoder_roundtrip_witness :
    feedList [] [] [[72, 195], [169]] = (['H', 'é'].map Char.toNat, []) :=
  frameDecoder_roundtrip ['H', 'é'] [[72, 195], [169]] (by decide)

/-- C3 counterexample: a single invalid chunk `61 80 80 80 80 80` leaves
a retained remainder of five bytes - longer than the four-byte maximum
the claim asserts for every input byte sequence (the decode error starts
at offset 1, and everything after it is retained). -/
theorem frameDecoder_remainder_cex :
    (feedList [] [] [[97, 128, 128, 128, 128, 128]]).2 = [128, 128, 128, 128, 128] ∧
    4 < (feedList [] [] [[97, 128, 128, 128, 128, 128]]).2.length := by decide

/-- C3 amended: (i) whenever the fed chunks form an initial segment of
the UTF-8 encoding of some string (in particular at every intermediate
step of feeding any partition of a valid encoding), the retained
remainder is a strict initial segment of one character's encoding,
hence at most 3 bytes (strictly below the 4-byte maximum character
width); for invalid input the remainder can instead exceed 4 bytes;
(ii) the decode loop itself never discards bytes - at every step the
new remainder is a suffix of the buffered bytes, everything before it
having been decoded and emitted; (iii) at teardown, on the
normal-completion path the remainder is flushed through
`decode('utf-8', errors='replace')`, which substitutes exactly one
U+FFFD decode-error placeholder for a remainder that never became
decodable (a strict non-empty initial segment of one character's
encoding), while on the mid-stream exception path the remainder is
dropped without substitution. -/
theorem frameDecoder_remainder_bound :
    (∀ (s : List Char) (chunks : List (List Nat)),
        isPre (flattenChunks chunks) (utf8Encode s) →
        (feedList [] [] chunks).2.length ≤ 3) ∧
    (∀ b c : List Nat, ∃ pre, b ++ c = pre ++ (feedStep b c).2) ∧
    (∀ n : Nat, (n < 0xD800 ∨ (0xE000 ≤ n ∧ n < 0x110000)) →
      ∀ t : List Nat, t ≠ [] → t.length < (encCp n).length → isPre t (encCp n) →
        relayTeardown t StreamEnd.ok = [0xFFFD] ∧
        ∀ msg, relayTeardown t (StreamEnd.exn msg) = []) := by
  refine ⟨?_, feedStep_conserves, ?_⟩
  · intro s chunks h
    obtain ⟨d, r', t', hdr, ht', hpt, hfeed⟩ :=
      feedList_spec chunks s [] [] (Or.inl rfl) (by simpa using h)
    rw [hfeed]
    rcases ht' with rfl | ⟨c, r'', -, -, hlt, -⟩
    · simp
    · have h4 : (utf8EncodeChar c).length ≤ 4 := encCp_length_le c.toNat
      simp only []
      omega
  · intro n hn t hne hlt hpre
    exact ⟨teardownFlush_incomplete hn hne hlt hpre, fun _ => rfl⟩

/-- C3 witness: feeding the first byte of `"é"` alone leaves a remainder
within the bound; flushing that one-byte remainder at normal stream end
yields exactly one U+FFFD, and the exception path drops it. -/
theorem frameDecoder_remainder_bound_witness :
    (feedList [] [] [[195]]).2.length ≤ 3 ∧
    relayTeardown [195] StreamEnd.ok = [0xFFFD] ∧
    relayTeardown [195] (StreamEnd.exn "boom") = [] :=
  ⟨frameDecoder_remainder_bound.1 ['é'] [[195]] ⟨[169], by decide⟩,
   (frameDecoder_remainder_bound.2.2 233 (by decide) [195] (by decide) (by decide)
      ⟨[169], by decide⟩).1,
   (frameDecoder_remainder_bound.2.2 233 (by decide) [195] (by decide) (by decide)
      ⟨[169], by decide⟩).2 "boom"⟩

/-! ## SSE escaping lemmas (claims C4, C5) -/

theorem pyReplace_not_mem_self {s : List Char} {c : Char} {r : List Char}
    (hr : c ∉ r) : c ∉ pyReplace s c r := by
  induction s with
  | nil => simp [pyReplace]
  | cons a s ih =>
    rw [pyReplace]
    split_ifs with h
    · intro hm
      rcases List.mem_append.mp hm with hm | hm
      · exact hr hm
      · exact ih hm
    · intro hm
      rcases List.mem_cons.mp hm with hm | hm
      · exact h hm.symm
      · exact ih hm

theorem pyReplace_not_mem_other {x c : Char} {r : List Char} (hr : x ∉ r) :
    ∀ s : List Char, x ∉ s → x ∉ pyReplace s c r := by
  intro s
  induction s with
  | nil => intro _; simp [pyReplace]
  | cons a s ih =>
    intro hs
    have hs1 : x ≠ a := fun he => hs (he ▸ List.mem_cons_self a s)
    have hs2 : x ∉ s := fun hm => hs (List.mem_cons_of_mem a hm)
    rw [pyReplace]
    split_ifs with h
    · intro hm
      rcases List.mem_append.mp hm with hm | hm
      · exact hr hm
      · exact ih hs2 hm
    · intro hm
      rcases List.mem_cons.mp hm with hm | hm
      · exact hs1 hm
      · exact ih hs2 hm

/-- C5 counterexample: `_format_sse_message` (sse_manager.py lines
132-137) embeds a string payload verbatim: a content string containing a
raw newline is not escaped, so the emitted record's data spans several
lines, contradicting the claim that every embedded content string has
its newlines replaced. -/
theorem formatSse_raw_newline_cex :
    formatSseMessageStr "message".data ['a', '\n', 'b'] =
      "event: message\ndata: a\nb\n\n".data ∧
    '\n' ∈ ['a', '\n', 'b'] := by decide

/-- C5 amended: in the main_simple relay every content string is escaped
with `content.replace('\n','\\n').replace('\r','\\r')` before embedding,
and the escaped payload contains no raw newline or carriage return (so
the `data:` frame built by `sseFrameSimple` is a single line);
`SSEConnectionManager._format_sse_message` performs no such escaping and
embeds string payloads verbatim. -/
theorem sseEscape_no_raw_newlines (content : List Char) :
    '\n' ∉ escapeSseContent content ∧ '\r' ∉ escapeSseContent content := by
  constructor
  · exact pyReplace_not_mem_other (by decide) _
      (pyReplace_not_mem_self (by decide))
  · exact pyReplace_not_mem_self (by decide)

/-- C4 counterexample: main_production.py suppresses the frame for an
empty-string content value (`if content:` is falsy on `""`), although
the claim requires exactly one frame per non-null content value
including the empty string; for contrast, main_simple.py does emit the
empty frame (its `json_obj.get("content", "")` default makes an absent
field behave like `""`, which is not `None`). -/
theorem itemFrames_cex :
    mainProdItemFrames (some (JContent.str "")) = [] ∧
    mainSimpleItemFrames none = [CFrame.content ""] := by decide

/-- C4 amended: main_simple behaves as claimed - exactly one frame per
content value that is not JSON `null`, including empty strings (absent
content defaults to `""` and yields an empty frame), suppression only
for `null`; main_production however emits a frame only when the content
value is Python-truthy (a non-empty string), so `null`, absent and
empty-string content are all suppressed there; neither relay ever emits
more than one frame per item line. -/
theorem itemFrames_amended (content? : Option JContent) :
    (mainSimpleItemFrames content? = [] ↔ getContentD content? = JContent.null) ∧
    (mainProdItemFrames content? = [] ↔
      pyTruthyContent (getContentD content?) = false) ∧
    (mainSimpleItemFrames content?).length ≤ 1 ∧
    (mainProdItemFrames content?).length ≤ 1 := by
  rcases content? with _ | c
  · simp [mainSimpleItemFrames, mainProdItemFrames, getContentD, pyTruthyContent]
  · rcases c with _ | s
    · simp [mainSimpleItemFrames, mainProdItemFrames, getContentD, pyTruthyContent]
    · by_cases hs : s = ""
      · subst hs
        simp [mainSimpleItemFrames, mainProdItemFrames, getContentD, pyTruthyContent]
      · simp [mainSimpleItemFrames, mainProdItemFrames, getContentD, pyTruthyContent, hs]

/-! ## Claims C1, C6, C7 -/

/-- C1: the relay protocol (spec section 7, and the frontend protocol
checked by the repository's own tests, which wait for `data: [DONE]`)
requires every error frame to be followed by `[DONE]`; chat.py's
`enhanced_sse_stream` instead breaks immediately after the error frame -
and emits no terminator at all when the message stream is exhausted
without a `complete` event - so the emitted sequence can end without a
`[DONE]` terminator (main_simple.py and main_production.py do append
`[DONE]` in every branch). -/
theorem enhancedSse_error_without_done :
    enhancedSseStream [NMsg.errorM "N8N service unavailable"] =
      [CFrame.errorF "N8N service unavailable"] ∧
    (enhancedSseStream [NMsg.errorM "N8N service unavailable"]).getLast? ≠
      some CFrame.done ∧
    enhancedSseStream [NMsg.message "Hi"] = [CFrame.content "Hi"] ∧
    (enhancedSseStream [NMsg.message "Hi"]).getLast? ≠ some CFrame.done := by
  decide

/-- C6 counterexample: with attempt 0 failing after it already forwarded
a content frame and attempt 1 succeeding with the same upstream content,
`send_message_with_retry` (retry_attempts = 3) performs a second attempt
and forwards the already-seen frame a second time - the claim says no
further attempt may be made once content was forwarded. -/
theorem retryDuplicates_cex :
    sendWithRetry
        (fun i => if i = 0 then ([RMsg.data "Hi"], true) else ([RMsg.data "Hi"], false))
        3 =
      [RMsg.data "Hi", RMsg.retry 1 1, RMsg.data "Hi"] ∧
    (sendWithRetry
        (fun i => if i = 0 then ([RMsg.data "Hi"], true) else ([RMsg.data "Hi"], false))
        3).count (RMsg.data "Hi") = 2 := by decide

/-- C6 amended: a failure during an attempt is retried whether or not
content frames were already forwarded to the caller, as long as attempts
remain: after a retry notification the next attempt runs and its frames
are forwarded too, so frames already seen by the caller can be emitted a
second time; the single terminal error message is produced only after
all `retry_attempts` attempts fail. -/
theorem retryAfterForwardedContent :
    (∀ (out : Nat → List RMsg × Bool) (fs : List RMsg),
        out 0 = (fs, true) → out 1 = (fs, false) →
        sendWithRetry out 3 = fs ++ RMsg.retry 1 1 :: fs) ∧
    (∀ (out : Nat → List RMsg × Bool),
        (∀ i, (out i).2 = true) →
        sendWithRetry out 3 =
          (out 0).1 ++ RMsg.retry 1 1 ::
            ((out 1).1 ++ RMsg.retry 2 2 :: ((out 2).1 ++ [RMsg.err]))) := by
  constructor
  · intro out fs h0 h1
    simp [sendWithRetry, runRetryGo, h0, h1]
  · intro out hall
    simp [sendWithRetry, runRetryGo, hall 0, hall 1, hall 2]

/-- C6 witness: concrete instantiations of both parts of the amended
statement. -/
theorem retryAfterForwardedContent_witness :
    sendWithRetry (fun i => ([RMsg.data "A"], i == 0)) 3 =
      [RMsg.data "A"] ++ RMsg.retry 1 1 :: [RMsg.data "A"] ∧
    sendWithRetry (fun _ => ([RMsg.data "B"], true)) 3 =
      [RMsg.data "B"] ++ RMsg.retry 1 1 ::
        ([RMsg.data "B"] ++ RMsg.retry 2 2 :: ([RMsg.data "B"] ++ [RMsg.err])) :=
  ⟨retryAfterForwardedContent.1 (fun i => ([RMsg.data "A"], i == 0)) [RMsg.data "A"]
      rfl rfl,
   retryAfterForwardedContent.2 (fun _ => ([RMsg.data "B"], true)) (fun _ => rfl)⟩

/-- C7 counterexample: breaker open with count 5, last failure at 100,
threshold 5, recovery timeout 60.  At time 161 the timeout has elapsed:
the request is permitted; when it fails, the circuit is left closed with
count 1 (not reopened, no restarted timer), and a second request at 162
is also permitted - the claim says exactly one trial is permitted and a
trial failure reopens the circuit. -/
theorem circuitBreaker_cex :
    (cbDispatch ⟨5, 100, true⟩ 161 5 60 CBOutcome.exn).1 = false ∧
    (cbDispatch ⟨5, 100, true⟩ 161 5 60 CBOutcome.exn).2.circuitOpen = false ∧
    (cbDispatch ⟨5, 100, true⟩ 161 5 60 CBOutcome.exn).2.failureCount = 1 ∧
    (cbDispatch ((cbDispatch ⟨5, 100, true⟩ 161 5 60 CBOutcome.exn).2)
        162 5 60 CBOutcome.exn).1 = false := by decide

/-- C7 amended: while the circuit is open and at most `recovery_timeout`
has elapsed since the last failure, every request is short-circuited
with the synthetic unavailable response and the handler is never
invoked; once strictly more than the timeout has elapsed, the breaker
resets fully to Closed with failure count 0 (all subsequent requests are
permitted, not a single trial), a post-reset failure records count 1 and
leaves the circuit closed whenever the threshold exceeds 1, and the
circuit opens whenever a recorded failure brings the count to the
threshold. -/
theorem circuitBreaker_amended :
    (∀ (st : CBState) (now threshold timeout : Nat) (o : CBOutcome),
        st.circuitOpen = true → now - st.lastFailure ≤ timeout →
        cbDispatch st now threshold timeout o = (true, st)) ∧
    (∀ (st : CBState) (now timeout : Nat),
        st.circuitOpen = true → timeout < now - st.lastFailure →
        cbIsOpen st now timeout =
          (false, { st with circuitOpen := false, failureCount := 0 })) ∧
    (∀ (st : CBState) (now threshold timeout : Nat),
        st.circuitOpen = true → timeout < now - st.lastFailure → 1 < threshold →
        (cbDispatch st now threshold timeout CBOutcome.exn).1 = false ∧
        (cbDispatch st now threshold timeout CBOutcome.exn).2.circuitOpen = false ∧
        (cbDispatch st now threshold timeout CBOutcome.exn).2.failureCount = 1) ∧
    (∀ (st : CBState) (now threshold : Nat),
        threshold ≤ st.failureCount + 1 →
        (cbRecordFailure st now threshold).circuitOpen = true) := by
  refine ⟨?_, ?_, ?_, ?_⟩
  · intro st now threshold timeout o ho hle
    simp [cbDispatch, cbIsOpen, ho, Nat.not_lt.mpr hle]
  · intro st now timeout ho hlt
    simp [cbIsOpen, ho, hlt]
  · intro st now threshold timeout ho hlt hth
    simp [cbDispatch, cbIsOpen, cbRecordFailure, ho, hlt]
    omega
  · intro st now threshold h
    simp [cbRecordFailure, h]

/-- C7 witness: at time 130 (30s after the last failure) the open
breaker short-circuits untouched; at 161 (61s after) a failing trial
leaves count 1; a sixth consecutive failure opens the circuit. -/
theorem circuitBreaker_amended_witness :
    cbDispatch ⟨5, 100, true⟩ 130 5 60 CBOutcome.exn = (true, ⟨5, 100, true⟩) ∧
    (cbDispatch ⟨5, 100, true⟩ 161 5 60 CBOutcome.exn).2.failureCount = 1 ∧
    (cbRecordFailure ⟨4, 50, false⟩ 51 5).circuitOpen = true :=
  ⟨circuitBreaker_amended.1 ⟨5, 100, true⟩ 130 5 60 CBOutcome.exn rfl (by decide),
   (circuitBreaker_amended.2.2.1 ⟨5, 100, true⟩ 161 5 60 rfl (by decide) (by decide)).2.2,
   circuitBreaker_amended.2.2.2 ⟨4, 50, false⟩ 51 5 (by decide)⟩

/-! ## Registry lemmas and claims C8, C10 -/

theorem dictLookup_insert {α : Type} (l : List (String × α)) (k : String) (v : α) :
    dictLookup (dictInsert l k v) k = some v := by
  induction l with
  | nil => simp [dictInsert, dictLookup]
  | cons p rest ih =>
    obtain ⟨k', v'⟩ := p
    by_cases h : k' = k
    · simp [dictInsert, dictLookup, h]
    · simp [dictInsert, dictLookup, h, ih]

theorem dictInsert_length_mem {α : Type} (l : List (String × α)) (k : String) (v w : α)
    (h : dictLookup l k = some w) : (dictInsert l k v).length = l.length := by
  induction l with
  | nil => simp [dictLookup] at h
  | cons p rest ih =>
    obtain ⟨k', v'⟩ := p
    by_cases hk : k' = k
    · simp [dictInsert, hk]
    · simp only [dictLookup, if_neg hk] at h
      simp [dictInsert, hk, ih h]

theorem dictInsert_length_le {α : Type} (l : List (String × α)) (k : String) (v : α) :
    (dictInsert l k v).length ≤ l.length + 1 := by
  induction l with
  | nil => simp [dictInsert]
  | cons p rest ih =>
    obtain ⟨k', v'⟩ := p
    by_cases hk : k' = k
    · simp [dictInsert, hk]
    · simp only [dictInsert, if_neg hk, List.length_cons]
      omega

/-- C8: a relay request arriving while the registry already holds
`max_connections` active connections is rejected by `create_connection`
with HTTP 503 before any upstream call is made, and every request
arriving below the ceiling is admitted, registered under its connection
id, and proceeds to the upstream. -/
theorem capacityLimit (st : ManagerSt) (sid ip : String) (t : Nat) :
    (st.maxConnections ≤ st.activeConnections.length →
      createConnection st sid ip t = Except.error 503 ∧
      sendMessageReachesUpstream st sid ip t = false) ∧
    (st.activeConnections.length < st.maxConnections →
      ∃ st', createConnection st sid ip t = Except.ok (sid ++ ":" ++ toString t, st') ∧
        dictLookup st'.activeConnections (sid ++ ":" ++ toString t) =
          some ⟨sid, ip, t, t, true⟩ ∧
        sendMessageReachesUpstream st sid ip t = true) := by
  constructor
  · intro h
    constructor
    · unfold createConnection
      rw [if_pos (by omega)]
    · unfold sendMessageReachesUpstream createConnection
      rw [if_pos (by omega)]
  · intro h
    refine ⟨{ st with
        activeConnections := dictInsert st.activeConnections (sid ++ ":" ++ toString t)
          ⟨sid, ip, t, t, true⟩,
        connectionQueues :=
          dictInsert st.connectionQueues (sid ++ ":" ++ toString t) st.nextQueue,
        nextQueue := st.nextQueue + 1 }, ?_, ?_, ?_⟩
    · unfold createConnection
      rw [if_neg (by omega)]
    · exact dictLookup_insert _ _ _
    · unfold sendMessageReachesUpstream createConnection
      rw [if_neg (by omega)]

/-- C8 witness: a registry at the 10000-connection ceiling rejects, and
the freshly initialised manager admits. -/
theorem capacityLimit_witness :
    createConnection
        ⟨List.replicate 10000 ("c", ⟨"s", "i", 0, 0, true⟩), [], 0, 10000⟩
        "sess" "10.0.0.1" 7 = Except.error 503 ∧
    sendMessageReachesUpstream initManager "sess" "10.0.0.1" 7 = true := by
  constructor
  · refine ((capacityLimit
        ⟨List.replicate 10000 ("c", ⟨"s", "i", 0, 0, true⟩), [], 0, 10000⟩
        "sess" "10.0.0.1" 7).1 ?_).1
    show (10000 : Nat) ≤
      (List.replicate 10000 ("c", (⟨"s", "i", 0, 0, true⟩ : SSEConnection))).length
    rw [List.length_replicate]
  · obtain ⟨st', -, -, h3⟩ :=
      (capacityLimit initManager "sess" "10.0.0.1" 7).2 (by decide)
    exact h3

/-- C10: connection ids are `session_id + ":" + int(time.time())`, so
two `create_connection` calls with the same session id within the same
whole second (both below the capacity ceiling) return the same id; the
second call's dict assignments overwrite the first call's registry entry
and message queue, the total connection count does not increase, and the
registry afterwards holds only the second call's connection and queue. -/
theorem duplicateConnectionId (st : ManagerSt) (sid ip1 ip2 : String) (t : Nat)
    (cid1 cid2 : String) (st1 st2 : ManagerSt)
    (hcap : st.activeConnections.length + 1 < st.maxConnections)
    (h1 : createConnection st sid ip1 t = Except.ok (cid1, st1))
    (h2 : createConnection st1 sid ip2 t = Except.ok (cid2, st2)) :
    cid2 = cid1 ∧
    st2.activeConnections.length = st1.activeConnections.length ∧
    dictLookup st2.activeConnections cid1 = some ⟨sid, ip2, t, t, true⟩ ∧
    dictLookup st1.connectionQueues cid1 = some st.nextQueue ∧
    dictLookup st2.connectionQueues cid1 = some st1.nextQueue ∧
    st1.nextQueue ≠ st.nextQueue := by
  unfold createConnection at h1
  rw [if_neg (by omega)] at h1
  simp only [Except.ok.injEq, Prod.mk.injEq] at h1
  obtain ⟨hc1, hs1⟩ := h1
  subst hc1
  subst hs1
  have hle := dictInsert_length_le st.activeConnections (sid ++ ":" ++ toString t)
    ⟨sid, ip1, t, t, true⟩
  unfold createConnection at h2
  rw [if_neg (by dsimp only; omega)] at h2
  simp only [Except.ok.injEq, Prod.mk.injEq] at h2
  obtain ⟨hc2, hs2⟩ := h2
  subst hc2
  subst hs2
  refine ⟨rfl, ?_, ?_, ?_, ?_, ?_⟩
  · exact dictInsert_length_mem _ _ _ _ (dictLookup_insert _ _ _)
  · exact dictLookup_insert _ _ _
  · exact dictLookup_insert _ _ _
  · exact dictLookup_insert _ _ _
  · exact Nat.succ_ne_self _

/-! ## Heartbeat/cleanup lemmas and claim C9 -/

theorem filter_length_map_preserve (f : RConn → RConn)
    (hf : ∀ c, (f c).hasQueue = c.hasQueue) (reg : List RConn) :
    ((reg.map f).filter fun c => c.hasQueue).length =
      (reg.filter fun c => c.hasQueue).length := by
  induction reg with
  | nil => rfl
  | cons c rest ih =>
    simp only [List.map_cons, List.filter_cons, hf c]
    cases hq : c.hasQueue
    · simpa [hq] using ih
    · simpa [hq] using ih

theorem hbStep_filter_len (t : Nat) (reg : List RConn) :
    ((hbStep t reg).filter fun c => c.hasQueue).length =
      (reg.filter fun c => c.hasQueue).length :=
  filter_length_map_preserve _ (fun c => by cases hq : c.hasQueue <;> simp [hq]) reg

theorem filter_keep_of_imp (p q : RConn → Bool) (reg : List RConn)
    (h : ∀ c ∈ reg, q c = true → p c = true) :
    ((reg.filter p).filter q).length = (reg.filter q).length := by
  induction reg with
  | nil => rfl
  | cons c rest ih =>
    have hrest : ∀ c ∈ rest, q c = true → p c = true :=
      fun c hc => h c (List.mem_cons_of_mem _ hc)
    cases hq : q c
    · cases hp : p c
      · rw [List.filter_cons_of_neg (by simp [hp]),
          List.filter_cons_of_neg (by simp [hq])]
        exact ih hrest
      · rw [List.filter_cons_of_pos (by simp [hp]),
          List.filter_cons_of_neg (by simp [hq]),
          List.filter_cons_of_neg (by simp [hq])]
        exact ih hrest
    · have hp : p c = true := h c (List.mem_cons_self _ _) hq
      rw [List.filter_cons_of_pos (by simp [hp]),
        List.filter_cons_of_pos (by simp [hq]),
        List.filter_cons_of_pos (by simp [hq])]
      simp only [List.length_cons, ih hrest]

/-- C9: while the heartbeat loop fires on schedule (every cleanup firing
is preceded by a heartbeat at most `heartbeat_interval` = 30s earlier),
every connection that still has a message queue gets its
`last_activity` refreshed through `send_message` at each heartbeat, so
its idle age at any cleanup never exceeds 30s < `connection_timeout` =
300s and the cleanup loop never evicts it: the number of queued
connections in the registry is preserved by any such run. -/
theorem heartbeatPreventsEviction :
    ∀ (evs : List REv) (reg : List RConn) (lastHb : Option Nat),
      regularFrom heartbeatInterval lastHb evs = true →
      (∀ th, lastHb = some th → ∀ c ∈ reg, c.hasQueue = true → th ≤ c.lastActivity) →
      ((runEvents connectionTimeout reg evs).filter fun c => c.hasQueue).length =
        (reg.filter fun c => c.hasQueue).length := by
  intro evs
  induction evs with
  | nil => intro reg lastHb _ _; rfl
  | cons ev rest ih =>
    intro reg lastHb hreg hinv
    cases ev with
    | hb t =>
      have hreg2 : regularFrom heartbeatInterval (some t) rest = true := by
        simpa [regularFrom] using hreg
      have hnewinv : ∀ th, (some t : Option Nat) = some th →
          ∀ c ∈ hbStep t reg, c.hasQueue = true → th ≤ c.lastActivity := by
        intro th hth c hc hq
        have hteq : t = th := by injection hth
        subst hteq
        obtain ⟨a, ha, hfa⟩ := List.mem_map.mp hc
        subst hfa
        cases hqa : a.hasQueue
        · simp [hqa] at hq
        · simp [hqa]
      have hrec := ih (hbStep t reg) (some t) hreg2 hnewinv
      simp only [runEvents]
      rw [hrec, hbStep_filter_len]
    | cleanup t =>
      cases lastHb with
      | none => simp [regularFrom] at hreg
      | some th =>
        simp only [regularFrom, Bool.and_eq_true, decide_eq_true_eq] at hreg
        obtain ⟨⟨hth1, hth2⟩, hreg'⟩ := hreg
        have hkeep : ∀ c ∈ reg, c.hasQueue = true →
            (decide (t - c.lastActivity ≤ connectionTimeout)) = true := by
          intro c hc hq
          have hla := hinv th rfl c hc hq
          simp only [decide_eq_true_eq]
          have h30 : heartbeatInterval = 30 := rfl
          have h300 : connectionTimeout = 300 := rfl
          omega
        have hnewinv : ∀ th', (some th : Option Nat) = some th' →
            ∀ c ∈ cleanupStep t connectionTimeout reg, c.hasQueue = true →
              th' ≤ c.lastActivity := by
          intro th' hth' c hc hq
          have hteq : th = th' := by injection hth'
          subst hteq
          exact hinv th rfl c (List.mem_of_mem_filter hc) hq
        have hrec := ih (cleanupStep t connectionTimeout reg) (some th) hreg' hnewinv
        simp only [runEvents]
        rw [hrec]
        exact filter_keep_of_imp _ _ reg hkeep

/-- C9 witness: a registry with one queued and one unqueued connection,
a heartbeat at 30 and a cleanup at 60, preserves its (single) queued
connection. -/
theorem heartbeatPreventsEviction_witness :
    ((runEvents connectionTimeout [⟨0, true⟩, ⟨0, false⟩]
        [REv.hb 30, REv.cleanup 60]).filter fun c => c.hasQueue).length =
      (([⟨0, true⟩, ⟨0, false⟩] : List RConn).filter fun c => c.hasQueue).length :=
  heartbeatPreventsEviction [REv.hb 30, REv.cleanup 60] [⟨0, true⟩, ⟨0, false⟩] none
    (by decide) (fun th h => Option.noConfusion h)

/-- C10 witness: two same-second `create_connection` calls for session
`"s"` at second 42 on the fresh manager both return id `"s:42"`; the
second call's state keeps the count at 1, holds the second connection
record, and holds the replacement queue tag. -/
theorem duplicateConnectionId_witness :
    ("s:42" : String) = "s:42" ∧
    (⟨[("s:42", ⟨"s", "2.2.2.2", 42, 42, true⟩)], [("s:42", 1)], 2, 10000⟩ :
        ManagerSt).activeConnections.length =
      (⟨[("s:42", ⟨"s", "1.1.1.1", 42, 42, true⟩)], [("s:42", 0)], 1, 10000⟩ :
        ManagerSt).activeConnections.length ∧
    dictLookup (⟨[("s:42", ⟨"s", "2.2.2.2", 42, 42, true⟩)], [("s:42", 1)], 2, 10000⟩ :
        ManagerSt).activeConnections "s:42" = some ⟨"s", "2.2.2.2", 42, 42, true⟩ ∧
    dictLookup (⟨[("s:42", ⟨"s", "1.1.1.1", 42, 42, true⟩)], [("s:42", 0)], 1, 10000⟩ :
        ManagerSt).connectionQueues "s:42" = some initManager.nextQueue ∧
    dictLookup (⟨[("s:42", ⟨"s", "2.2.2.2", 42, 42, true⟩)], [("s:42", 1)], 2, 10000⟩ :
        ManagerSt).connectionQueues "s:42" =
      some (⟨[("s:42", ⟨"s", "1.1.1.1", 42, 42, true⟩)], [("s:42", 0)], 1, 10000⟩ :
        ManagerSt).nextQueue ∧
    (⟨[("s:42", ⟨"s", "1.1.1.1", 42, 42, true⟩)], [("s:42", 0)], 1, 10000⟩ :
        ManagerSt).nextQueue ≠ initManager.nextQueue :=
  duplicateConnectionId initManager "s" "1.1.1.1" "2.2.2.2" 42 "s:42" "s:42"
    ⟨[("s:42", ⟨"s", "1.1.1.1", 42, 42, true⟩)], [("s:42", 0)], 1, 10000⟩
    ⟨[("s:42", ⟨"s", "2.2.2.2", 42, 42, true⟩)], [("s:42", 1)], 2, 10000⟩
    (by decide) rfl rfl
